import Mathlib

/-
Verification of the `Store` class and its helpers from `src/object/index.ts`
(the file-backed key-value store of the lwe8/util repository).

Embedding notes, matching the source line by line:

* Stored values are JSON-serialisable data (`Record<string, any>` holding
  arbitrary serialisable values).  They are modelled by the inductive `Val`;
  records (plain JS objects) are association lists `List (String × Val)` in
  insertion order.  JS objects cannot carry duplicate keys, so states reached
  by the real program always have duplicate-free key lists; theorems that need
  this carry it as an explicit hypothesis.
* `JSON.stringify` is modelled by `jsonChars` (escaping as in ECMA-404 /
  `JSON.stringify`, numbers restricted to integers) and
  `Buffer.byteLength(-, "utf8")` by `utf8Len`, so `bfo` is exactly
  `Buffer.byteLength(JSON.stringify(obj), "utf8")`.
* `zlib.brotliCompressSync` / `brotliDecompressSync` and `JSON.parse` are
  external collaborators (section 2 of the design document).  Store operations
  are parametrised over `compress : String → String` (standing for
  `brotliCompressSync` applied to the serialised text) and
  `parse : String → List (String × Val)` (standing for
  `JSON.parse ∘ brotliDecompressSync`).  Theorems that need the codec
  round-trip assume it pointwise at the values actually written.
* The class field `__proto__ : {}` is used by the source purely as a data slot
  holding the last persisted snapshot (it is an own data property under ES2022
  class-field semantics); it is modelled as the field `snapshot`.
* The `EventEmitter` wiring is fixed in the constructor: `bytesLimitOver` is
  handled by the *unbound* method reference `this.reducebyts`, so when the
  event fires the handler runs with `this` bound to the emitter, and its first
  statement `this.getNewStore()` throws a `TypeError` which propagates out of
  `emit`.  `removedFromTempStorage` has a harmless logging listener, and
  `removedFromFileStorage` is emitted under a name that was never registered
  (the constructor registers the misspelling `removedFromFileStorag`), so that
  emit is a no-op.  Operations therefore return the list of events emitted and
  an `error` flag that is set exactly when `bytesLimitOver` fires.
* The filesystem is an association list from paths to file contents; the
  directory bookkeeping of `checkDir` has no observable effect on the store
  data and is not modelled.
-/

/-- JSON-serialisable values: the data stored in a `Store`. -/
inductive Val : Type where
  | vnull : Val
  | vbool (b : Bool) : Val
  | vnum (n : Int) : Val
  | vstr (s : String) : Val
  | varr (elems : List Val) : Val
  | vobj (fields : List (String × Val)) : Val
deriving Repr

/-- Number of UTF-8 bytes of one character (as counted by `Buffer.byteLength`). -/
def charBytes (c : Char) : Nat :=
  if c.toNat < 0x80 then 1
  else if c.toNat < 0x800 then 2
  else if c.toNat < 0x10000 then 3
  else 4

/-- UTF-8 byte length of a character list, modelling `Buffer.byteLength(s, "utf8")`. -/
def utf8Len : List Char → Nat
  | [] => 0
  | c :: cs => charBytes c + utf8Len cs

/-- Lower-case hexadecimal digit. -/
def hexDigit (n : Nat) : Char :=
  if n < 10 then Char.ofNat (48 + n) else Char.ofNat (87 + n)

/-- Escaping of a single character inside a JSON string literal, as performed
by `JSON.stringify`. -/
def escChar (c : Char) : List Char :=
  if c = '"' then ['\\', '"']
  else if c = '\\' then ['\\', '\\']
  else if c = '\x08' then ['\\', 'b']
  else if c = '\x09' then ['\\', 't']
  else if c = '\x0a' then ['\\', 'n']
  else if c = '\x0c' then ['\\', 'f']
  else if c = '\x0d' then ['\\', 'r']
  else if c.toNat < 0x20 then ['\\', 'u', '0', '0', hexDigit (c.toNat / 16), hexDigit (c.toNat % 16)]
  else [c]

/-- Escaping of a character list inside a JSON string literal. -/
def escList : List Char → List Char
  | [] => []
  | c :: cs => escChar c ++ escList cs

/-- A JSON string literal: quote, escaped contents, quote. -/
def quoteStr (s : String) : List Char :=
  '"' :: escList s.data ++ ['"']

mutual

/-- Characters of `JSON.stringify` applied to a value. -/
def jsonChars : Val → List Char
  | .vnull => ['n', 'u', 'l', 'l']
  | .vbool true => ['t', 'r', 'u', 'e']
  | .vbool false => ['f', 'a', 'l', 's', 'e']
  | .vnum n => (toString n).data
  | .vstr s => quoteStr s
  | .varr xs => '[' :: jsonCharsList xs ++ [']']
  | .vobj fs => '\x7b' :: jsonCharsFields fs ++ ['\x7d']

/-- Comma-separated serialisations of array elements. -/
def jsonCharsList : List Val → List Char
  | [] => []
  | [v] => jsonChars v
  | v :: w :: vs => jsonChars v ++ ',' :: jsonCharsList (w :: vs)

/-- Comma-separated `"key":value` serialisations of object fields. -/
def jsonCharsFields : List (String × Val) → List Char
  | [] => []
  | [(k, v)] => quoteStr k ++ ':' :: jsonChars v
  | (k, v) :: q :: rest => quoteStr k ++ ':' :: jsonChars v ++ ',' :: jsonCharsFields (q :: rest)

end

/-- The serialised text `JSON.stringify(v)` as a `String`. -/
def jsonStr (v : Val) : String := String.mk (jsonChars v)

/-- Serialised text of a record, `JSON.stringify(obj)`. -/
def stringifyObj (o : List (String × Val)) : String := jsonStr (Val.vobj o)

/-- Model of the source helper `bfo`:
`Buffer.byteLength(JSON.stringify(obj), "utf8")`. -/
def bfo (v : Val) : Nat := utf8Len (jsonChars v)

/-- Whether a record has a field named `k`
(`Object.keys(obj).includes(k)` / `key in obj`). -/
def hasKey (o : List (String × Val)) (k : String) : Bool :=
  (o.lookup k).isSome

/-- Model of `delete obj[k]` on a plain JS object: the binding for `k`
disappears, all other bindings keep their order. -/
def eraseKey (o : List (String × Val)) (k : String) : List (String × Val) :=
  o.filter (fun p => !(p.1 == k))

/-- Model of the JS object spread `{ ...a, ...b }`: the keys of `a` in their
order, each taking the value from `b` when `b` also has the key, followed by
the keys of `b` that are new, in their order. -/
def objSpread (a b : List (String × Val)) : List (String × Val) :=
  a.map (fun p => match b.lookup p.1 with
    | some w => (p.1, w)
    | none => p)
  ++ b.filter (fun p => !(hasKey a p.1))

/-- Model of the JS assignment `obj[k] = v`: an existing binding is updated in
place, a new one is appended. -/
def setKey (o : List (String × Val)) (k : String) (v : Val) : List (String × Val) :=
  if hasKey o k then o.map (fun p => if p.1 == k then (k, v) else p)
  else o ++ [(k, v)]

/-- Keys of a record, in order (`Object.keys`). -/
def keysOf (o : List (String × Val)) : List String := o.map Prod.fst

/-- The record's keys are pairwise distinct (always true of a JS object). -/
def nodupKeys : List (String × Val) → Bool
  | [] => true
  | (k, _) :: rest => !(hasKey rest k) && nodupKeys rest

mutual

/-- A value is representable as a JS runtime value: every object inside it has
duplicate-free keys. -/
def wfVal : Val → Bool
  | .vnull => true
  | .vbool _ => true
  | .vnum _ => true
  | .vstr _ => true
  | .varr xs => wfList xs
  | .vobj fs => nodupKeys fs && wfFields fs

/-- All values of a list are representable. -/
def wfList : List Val → Bool
  | [] => true
  | v :: vs => wfVal v && wfList vs

/-- All field values of a record are representable. -/
def wfFields : List (String × Val) → Bool
  | [] => true
  | (_, v) :: rest => wfVal v && wfFields rest

end

/-- A record is a well-formed JS object: duplicate-free keys at the top and
inside every nested object. -/
def wfObj (o : List (String × Val)) : Bool :=
  nodupKeys o && wfFields o

mutual

/-- Model of the `dequal` package's deep structural equality on two values:
primitives compare by value, arrays index-wise, and plain objects by key count
plus per-key comparison (so object key order is irrelevant). -/
def dequalVal : Val → Val → Bool
  | .vnull, .vnull => true
  | .vbool a, .vbool c => a == c
  | .vnum a, .vnum c => a == c
  | .vstr a, .vstr c => a == c
  | .varr a, .varr c => dequalList a c
  | .vobj a, .vobj c => a.length == c.length && dequalFields a c
  | _, _ => false

/-- Index-wise deep equality of array elements. -/
def dequalList : List Val → List Val → Bool
  | [], [] => true
  | v :: vs, w :: ws => dequalVal v w && dequalList vs ws
  | _, _ => false

/-- Every field of the first record exists in the second with a deeply equal
value. -/
def dequalFields : List (String × Val) → List (String × Val) → Bool
  | [], _ => true
  | (k, v) :: rest, c =>
    (match c.lookup k with
     | some w => dequalVal v w
     | none => false) && dequalFields rest c

end

/-- Deep structural equality of two records, `dequal(a, b)` on plain objects. -/
def dequalObj (a b : List (String × Val)) : Bool :=
  a.length == b.length && dequalFields a b

/-- Value of a field that is known to be present
(the source reads `obj[key]` only for keys of `Object.keys(obj)`). -/
def lookupD (o : List (String × Val)) (k : String) : Val :=
  (o.lookup k).getD Val.vnull

/-- Stable descending insertion of a key into a list already sorted by
descending `f`: the new key goes after all keys of at least its weight.
Together with `sortKeysD` this models `Array.prototype.sort`, which is
guaranteed stable. -/
def insD (f : String → Nat) (k : String) : List String → List String
  | [] => [k]
  | y :: ys => if f k ≤ f y then y :: insD f k ys else k :: y :: ys

/-- Stable sort of keys by descending weight, modelling
`Object.keys(obj).sort((a, b) => bfo(obj[b]) - bfo(obj[a]))`. -/
def sortKeysD (f : String → Nat) (l : List String) : List String :=
  l.foldl (fun acc k => insD f k acc) []

/-- The accepting loop of `reduceByts`: walk the sorted keys, keep a running
total, and stop at the first entry that would push the total above `max`
(the `break` drops every later entry). -/
def reduceBytsGo (obj : List (String × Val)) (max : Nat) :
    List String → Nat → List (String × Val)
  | [], _ => []
  | k :: ks, size =>
    let keySize := bfo (lookupD obj k)
    if max < size + keySize then []
    else (k, lookupD obj k) :: reduceBytsGo obj max ks (size + keySize)

/-- Model of the source function `reduceByts(obj, max)`: sort the keys by
descending serialised byte size of their values, then greedily accept entries
while the running total stays at or under `max`, stopping at the first entry
that would exceed it. -/
def reduceByts (obj : List (String × Val)) (max : Nat) : List (String × Val) :=
  reduceBytsGo obj max (sortKeysD (fun k => bfo (lookupD obj k)) (keysOf obj)) 0

/-- Stable descending insertion of an entry, used by the specification-side
definition below. -/
def insDP (g : String × Val → Nat) (p : String × Val) :
    List (String × Val) → List (String × Val)
  | [] => [p]
  | q :: qs => if g p ≤ g q then q :: insDP g p qs else p :: q :: qs

/-- Stable sort of entries by descending serialised byte size of the value. -/
def sortEntriesD (l : List (String × Val)) : List (String × Val) :=
  l.foldl (fun acc p => insDP (fun q => bfo q.2) p acc) []

/-- Greedy acceptance of sorted entries while the running total stays at or
under `max`, stopping at the first entry that would exceed it. -/
def greedyTake (max : Nat) : List (String × Val) → Nat → List (String × Val)
  | [], _ => []
  | p :: ps, size =>
    if max < size + bfo p.2 then []
    else p :: greedyTake max ps (size + bfo p.2)

/-- Specification-side restatement of the eviction algorithm, following the
design document's words: "compute each entry's serialized size, sort entries
largest-first, greedily accept entries in that order while running total is at
most max, stop at the first entry that would exceed budget".  Ties keep the
host sort's stable order. -/
def reduceBytsSpec (obj : List (String × Val)) (max : Nat) : List (String × Val) :=
  greedyTake max (sortEntriesD obj) 0

/-- The filesystem visible to a store: paths mapped to file contents. -/
abbrev FS : Type := List (String × String)

/-- Content of the file at a path, if it exists (`fs.readFileSync` guarded by
`fs.existsSync`). -/
def fsLookup (fs : FS) (p : String) : Option String :=
  List.lookup p fs

/-- Write a file (`fs.writeFileSync`): replace the content in place or create
the file. -/
def fsSet (fs : FS) (p : String) (b : String) : FS :=
  if (List.lookup p fs).isSome then
    (fs : List (String × String)).map (fun q => if q.1 == p then (p, b) else q)
  else fs ++ [(p, b)]

/-- UTF-8 encoding of one character as a list of byte values. -/
def utf8Bytes (c : Char) : List Nat :=
  let n := c.toNat
  if n < 0x80 then [n]
  else if n < 0x800 then [0xc0 + n / 64, 0x80 + n % 64]
  else if n < 0x10000 then [0xe0 + n / 4096, 0x80 + n / 64 % 64, 0x80 + n % 64]
  else [0xf0 + n / 262144, 0x80 + n / 4096 % 64, 0x80 + n / 64 % 64, 0x80 + n % 64]

/-- Hexadecimal encoding of the UTF-8 bytes of a string,
`Buffer.from(fn).toString("hex")`. -/
def hexOfString (s : String) : String :=
  String.mk ((s.data.foldr (fun c acc => utf8Bytes c ++ acc) []).foldr
    (fun b acc => hexDigit (b / 16) :: hexDigit (b % 16) :: acc) [])

/-- Model of `Store.setFilePath`: the backing file lives at
`<dir>/$<hex-of-name>.br`. -/
def setFilePath (dir fn : String) : String :=
  dir ++ "/$" ++ hexOfString fn ++ ".br"

/-- The mutable state of a `Store` instance.  `store` is the in-memory pending
buffer `_store`, `snapshot` is the last persisted snapshot kept in the
`__proto__` slot, `max` is `_max`. -/
structure StoreSt where
  filePath : String
  store : List (String × Val)
  snapshot : List (String × Val)
  max : Nat
deriving Repr

/-- Model of the `Store` constructor: the name defaults to `"lwe8_store"`, the
directory is `".lwe8_store"`, the buffer and the snapshot start empty, and the
byte budget is 250000. -/
def mkStore (name : Option String) : StoreSt :=
  { filePath := setFilePath ".lwe8_store" (name.getD "lwe8_store")
    store := []
    snapshot := []
    max := 250000 }

/-- Events emitted on the store's internal `EventEmitter`. -/
inductive Ev : Type where
  | bytesLimitOver : Ev
  | removedFromTempStorage (key : String) : Ev
  | removedFromFileStorage (key : String) : Ev
deriving Repr, DecidableEq

/-- Model of `Store.firstWrite`: despite its name it returns whether the
backing file already exists. -/
def firstWrite (fs : FS) (s : StoreSt) : Bool :=
  (fsLookup fs s.filePath).isSome

/-- Model of `Store.getFormFile`: decompress and parse the backing file, or
return the empty record when the file does not exist. -/
def getFormFile (parse : String → List (String × Val)) (fs : FS) (s : StoreSt) :
    List (String × Val) :=
  match fsLookup fs s.filePath with
  | some b => parse b
  | none => []

/-- Model of `Store.getNewStore`: the merged view `{ ..._fs, ..._ss }` of the
on-disk record overlaid with the pending buffer.  (The source's
`length > 0 ? { ...x } : {}` guards only copy their operand.) -/
def getNewStore (parse : String → List (String × Val)) (fs : FS) (s : StoreSt) :
    List (String × Val) :=
  objSpread (getFormFile parse fs s) s.store

/-- Model of `Store._write`: compress the serialised record, write it to the
backing file, and clear the whole pending buffer. -/
def storeWrite (compress : String → String) (fs : FS) (s : StoreSt)
    (obj : List (String × Val)) : FS × StoreSt :=
  (fsSet fs s.filePath (compress (stringifyObj obj)), { s with store := [] })

/-- Model of `Store.emitEvent`: recompute the merged view, and when its
serialised byte size exceeds `_max`, emit `bytesLimitOver`.  That emit invokes
the unbound listener `this.reducebyts` with `this` bound to the emitter, whose
first statement `this.getNewStore()` throws a `TypeError`; the flag returned
alongside the events records that the call raised. -/
def emitEvent (parse : String → List (String × Val)) (fs : FS) (s : StoreSt) :
    List Ev × Bool :=
  let ns := getNewStore parse fs s
  if s.max < bfo (Val.vobj ns) then ([Ev.bytesLimitOver], true) else ([], false)

/-- Model of the method `Store.reducebyts`, as it would run with a correctly
bound `this`: the eviction computation on the merged view, whose result is
returned to the emitter and discarded. -/
def reducebytsMethod (parse : String → List (String × Val)) (fs : FS) (s : StoreSt) :
    List (String × Val) :=
  reduceByts (getNewStore parse fs s) s.max

/-- Result of an operation that may touch the disk: the filesystem, the store
state, the events emitted, the records written to the backing file in order,
and whether a listener raised a `TypeError` that propagated to the caller. -/
structure WResult where
  fs : FS
  st : StoreSt
  events : List Ev
  writes : List (List (String × Val))
  error : Bool
deriving Repr

/-- Model of `Store.write`.  Without a backing file: persist the merged view,
record it as the snapshot, clear the buffer, then run the byte-budget check.
With a backing file: do the same only when the merged view is not deeply equal
to the snapshot, otherwise do nothing.  The mutations precede `emitEvent`, so
they survive even when the budget check raises. -/
def write (compress : String → String) (parse : String → List (String × Val))
    (fs : FS) (s : StoreSt) : WResult :=
  if firstWrite fs s = false then
    let ns := getNewStore parse fs s
    let s1 := { s with snapshot := ns }
    let p := storeWrite compress fs s1 ns
    let e := emitEvent parse p.1 p.2
    ⟨p.1, p.2, e.1, [ns], e.2⟩
  else
    let ns := getNewStore parse fs s
    if firstWrite fs s && !(dequalObj ns s.snapshot) then
      let p := storeWrite compress fs s ns
      let s2 := { p.2 with snapshot := ns }
      let e := emitEvent parse p.1 s2
      ⟨p.1, s2, e.1, [ns], e.2⟩
    else ⟨fs, s, [], [], false⟩

namespace Store

/-- Model of `Store.get`: `getNewStore()[key] ?? undefined`.  A missing key and
a stored `null` both come back as `undefined`, modelled as `none`. -/
def get (parse : String → List (String × Val)) (fs : FS) (s : StoreSt)
    (key : String) : Option Val :=
  match (getNewStore parse fs s).lookup key with
  | some Val.vnull => none
  | some v => some v
  | none => none

end Store

/-- Model of the `set(obj)` overload: overlay the argument on the merged view
and make that the new pending buffer.  No filesystem effect. -/
def setObjArg (parse : String → List (String × Val)) (fs : FS) (s : StoreSt)
    (obj : List (String × Val)) : StoreSt :=
  { s with store := objSpread (getNewStore parse fs s) obj }

/-- Model of the `set(key, value)` overload: assign into the merged view and
make that the new pending buffer.  No filesystem effect. -/
def setKeyArg (parse : String → List (String × Val)) (fs : FS) (s : StoreSt)
    (k : String) (v : Val) : StoreSt :=
  { s with store := setKey (getNewStore parse fs s) k v }

/-- The key loop of `Store.remove`: for each key, delete it from the pending
buffer when present (emitting `removedFromTempStorage`), and from the local
copy of the on-disk record when present (emitting `removedFromFileStorage`,
whose listener was registered under a misspelled name, so the emit is inert). -/
def removeLoop : List String → List (String × Val) → List (String × Val) →
    List Ev → List (String × Val) × List (String × Val) × List Ev
  | [], st, f, evs => (st, f, evs)
  | k :: ks, st, f, evs =>
    let st1 := if hasKey st k then eraseKey st k else st
    let e1 := if hasKey st k then evs ++ [Ev.removedFromTempStorage k] else evs
    let f1 := if hasKey f k then eraseKey f k else f
    let e2 := if hasKey f k then e1 ++ [Ev.removedFromFileStorage k] else e1
    removeLoop ks st1 f1 e2

/-- Model of `Store.remove(...keys)`: run the key loop, then, when the modified
on-disk record is no longer deeply equal to the snapshot, immediately rewrite
the backing file with it (which also clears the whole pending buffer, because
`_write` does) and update the snapshot.  No byte-budget check runs here. -/
def remove (compress : String → String) (parse : String → List (String × Val))
    (fs : FS) (s : StoreSt) (keys : List String) : WResult :=
  let f0 := getFormFile parse fs s
  let r := removeLoop keys s.store f0 []
  if !(dequalObj r.2.1 s.snapshot) then
    let s1 := { s with store := r.1 }
    let p := storeWrite compress fs s1 r.2.1
    ⟨p.1, { p.2 with snapshot := r.2.1 }, r.2.2, [r.2.1], false⟩
  else
    ⟨fs, { s with store := r.1 }, r.2.2, [], false⟩

/-- A string of `n` repetitions of the letter a. -/
def mkA (n : Nat) : String := String.mk (List.replicate n 'a')

theorem utf8Len_append (a b : List Char) : utf8Len (a ++ b) = utf8Len a + utf8Len b := by
  induction a with
  | nil => simp [utf8Len]
  | cons c cs ih => simp [utf8Len, ih]; omega

theorem escList_replicate_a (n : Nat) :
    escList (List.replicate n 'a') = List.replicate n 'a' := by
  induction n with
  | zero => rfl
  | succ m ih => simp [List.replicate, escList, ih]; rfl

theorem utf8Len_replicate_a (n : Nat) : utf8Len (List.replicate n 'a') = n := by
  induction n with
  | zero => rfl
  | succ m ih =>
    have h1 : charBytes 'a' = 1 := by decide
    simp [List.replicate, utf8Len, ih, h1]
    omega

theorem bfo_vstr (s : String) : bfo (Val.vstr s) = utf8Len (escList s.data) + 2 := by
  simp [bfo, jsonChars, quoteStr, utf8Len, utf8Len_append, charBytes]
  omega

theorem bfo_vstr_mkA (n : Nat) : bfo (Val.vstr (mkA n)) = n + 2 := by
  simp [bfo_vstr, mkA, escList_replicate_a, utf8Len_replicate_a]

theorem bfo_vobj_single (k : String) (v : Val) :
    bfo (Val.vobj [(k, v)]) = utf8Len (quoteStr k) + bfo v + 3 := by
  simp [bfo, jsonChars, jsonCharsFields, utf8Len, utf8Len_append, charBytes]
  omega

theorem objSpread_nil_right (a : List (String × Val)) : objSpread a [] = a := by
  simp [objSpread, List.lookup]

theorem objSpread_nil_left (b : List (String × Val)) : objSpread [] b = b := by
  simp [objSpread, hasKey, List.lookup]

theorem lookup_append_right_of_none {p : String} {b : String} (l : List (String × String))
    (h : List.lookup p l = none) : List.lookup p (l ++ [(p, b)]) = some b := by
  induction l with
  | nil => simp [List.lookup]
  | cons q rest ih =>
    obtain ⟨k1, c1⟩ := q
    simp only [List.lookup, List.cons_append] at h ⊢
    cases hq : (p == k1) with
    | true =>
      simp only [hq] at h
      simp at h
    | false =>
      simp only [hq] at h ⊢
      exact ih h

theorem lookup_map_set {p : String} {b : String} (l : List (String × String)) (c : String)
    (h : List.lookup p l = some c) :
    List.lookup p (l.map (fun q => if q.1 == p then (p, b) else q)) = some b := by
  induction l with
  | nil => simp [List.lookup] at h
  | cons q rest ih =>
    obtain ⟨k1, c1⟩ := q
    by_cases hk : k1 = p
    · subst hk
      simp only [List.map]
      rw [if_pos (by simp)]
      simp [List.lookup]
    · have h1 : (k1 == p) = false := beq_eq_false_iff_ne.mpr hk
      have h2 : (p == k1) = false := beq_eq_false_iff_ne.mpr (Ne.symm hk)
      simp only [List.lookup, h2] at h
      simp only [List.map, h1, Bool.false_eq_true, if_false]
      simp only [List.lookup, h2]
      exact ih h

theorem fsLookup_fsSet_self (fs : FS) (p b : String) :
    fsLookup (fsSet fs p b) p = some b := by
  unfold fsLookup fsSet
  cases h : (List.lookup p fs) with
  | none =>
    rw [if_neg (by simp [h])]
    exact lookup_append_right_of_none fs h
  | some c =>
    rw [if_pos (by simp [h])]
    exact lookup_map_set fs c h

theorem hasKey_of_mem {o : List (String × Val)} {k : String} {v : Val}
    (h : (k, v) ∈ o) : hasKey o k = true := by
  induction o with
  | nil => simp at h
  | cons q rest ih =>
    obtain ⟨k1, v1⟩ := q
    rcases List.mem_cons.mp h with h1 | h1
    · injection h1 with hk hv
      subst hk
      simp [hasKey, List.lookup]
    · by_cases hk : k = k1
      · subst hk
        simp [hasKey, List.lookup]
      · have h2 : (k == k1) = false := beq_eq_false_iff_ne.mpr hk
        simp only [hasKey, List.lookup, h2]
        exact ih h1

theorem mem_lookup_nodup {o : List (String × Val)} {k : String} {v : Val}
    (hnd : nodupKeys o = true) (h : (k, v) ∈ o) : o.lookup k = some v := by
  induction o with
  | nil => simp at h
  | cons q rest ih =>
    obtain ⟨k1, v1⟩ := q
    simp only [nodupKeys, Bool.and_eq_true, Bool.not_eq_true'] at hnd
    rcases List.mem_cons.mp h with h1 | h1
    · injection h1 with hk hv
      subst hk
      subst hv
      simp [List.lookup]
    · by_cases hk : k = k1
      · subst hk
        exact absurd (hasKey_of_mem h1) (by simp [hnd.1])
      · have h2 : (k == k1) = false := beq_eq_false_iff_ne.mpr hk
        simp only [List.lookup, h2]
        exact ih hnd.2 h1

theorem wfFields_mem {o : List (String × Val)} {k : String} {v : Val}
    (hwf : wfFields o = true) (h : (k, v) ∈ o) : wfVal v = true := by
  induction o with
  | nil => simp at h
  | cons q rest ih =>
    obtain ⟨k1, v1⟩ := q
    simp only [wfFields, Bool.and_eq_true] at hwf
    rcases List.mem_cons.mp h with h1 | h1
    · injection h1 with hk hv
      subst hv
      exact hwf.1
    · exact ih hwf.2 h1

theorem wfList_mem {xs : List Val} {v : Val} (hwf : wfList xs = true) (h : v ∈ xs) :
    wfVal v = true := by
  induction xs with
  | nil => simp at h
  | cons u us ih =>
    simp only [wfList, Bool.and_eq_true] at hwf
    rcases List.mem_cons.mp h with h1 | h1
    · subst h1
      exact hwf.1
    · exact ih hwf.2 h1

theorem dequalList_of : ∀ ys : List Val, (∀ u ∈ ys, dequalVal u u = true) →
    dequalList ys ys = true := by
  intro ys h
  induction ys with
  | nil => rfl
  | cons u us ih =>
    simp only [dequalList, Bool.and_eq_true]
    exact ⟨h u (by simp), ih (fun w hw => h w (by simp [hw]))⟩

theorem dequalFields_of (c : List (String × Val)) (hnd : nodupKeys c = true) :
    ∀ a : List (String × Val), (∀ p ∈ a, p ∈ c ∧ dequalVal p.2 p.2 = true) →
    dequalFields a c = true := by
  intro a h
  induction a with
  | nil => rfl
  | cons p rest ih =>
    obtain ⟨k, v⟩ := p
    have hp := h (k, v) (by simp)
    simp only [dequalFields, Bool.and_eq_true]
    constructor
    · rw [mem_lookup_nodup hnd hp.1]
      exact hp.2
    · exact ih (fun q hq => h q (by simp [hq]))

theorem dequal_refl_aux : ∀ n : Nat, ∀ v : Val, sizeOf v ≤ n → wfVal v = true →
    dequalVal v v = true := by
  intro n
  induction n with
  | zero =>
    intro v hle
    exfalso
    cases v <;> simp at hle
  | succ m ih =>
    intro v hle hwf
    cases v with
    | vnull => rfl
    | vbool b => simp [dequalVal]
    | vnum k => simp [dequalVal]
    | vstr s => simp [dequalVal]
    | varr xs =>
      have hsz : sizeOf xs ≤ m := by
        have := Val.varr.sizeOf_spec xs
        omega
      simp only [wfVal] at hwf
      simp only [dequalVal]
      refine dequalList_of xs (fun u hu => ?_)
      have h1 : sizeOf u < sizeOf xs := List.sizeOf_lt_of_mem hu
      exact ih u (by omega) (wfList_mem hwf hu)
    | vobj fields =>
      have hsz : sizeOf fields ≤ m := by
        have := Val.vobj.sizeOf_spec fields
        omega
      simp only [wfVal, Bool.and_eq_true] at hwf
      simp only [dequalVal, Bool.and_eq_true]
      refine ⟨by simp, dequalFields_of fields hwf.1 fields (fun p hp => ⟨hp, ?_⟩)⟩
      obtain ⟨k, v⟩ := p
      have h1 : sizeOf (k, v) < sizeOf fields := List.sizeOf_lt_of_mem hp
      have h2 : sizeOf (k, v) = 1 + sizeOf k + sizeOf v := rfl
      refine ih v (by omega) (wfFields_mem hwf.2 hp)

/-- Deep equality is reflexive on every value a JS runtime can hold. -/
theorem dequal_refl (v : Val) (h : wfVal v = true) : dequalVal v v = true :=
  dequal_refl_aux (sizeOf v) v le_rfl h

/-- Deep equality of records is reflexive on well-formed records. -/
theorem dequalObj_refl (o : List (String × Val)) (h : wfObj o = true) :
    dequalObj o o = true := by
  have h2 := dequal_refl (Val.vobj o) (by simpa [wfVal, wfObj] using h)
  simpa [dequalVal, dequalObj] using h2

theorem lookup_eraseKey_ne (o : List (String × Val)) (k k0 : String) (h : k ≠ k0) :
    (eraseKey o k0).lookup k = o.lookup k := by
  induction o with
  | nil => rfl
  | cons q rest ih =>
    obtain ⟨k1, v1⟩ := q
    by_cases h1 : k1 = k0
    · subst h1
      have h2 : (k == k1) = false := beq_eq_false_iff_ne.mpr h
      simp only [eraseKey, List.filter, beq_self_eq_true, Bool.not_true]
      simp only [eraseKey] at ih
      rw [ih]
      simp only [List.lookup, h2]
    · have h2 : (k1 == k0) = false := beq_eq_false_iff_ne.mpr h1
      simp only [eraseKey, List.filter, h2, Bool.not_false]
      simp only [eraseKey] at ih
      simp only [List.lookup]
      cases hq : (k == k1) with
      | true => rfl
      | false => exact ih

theorem removeLoop_store_lookup (ks : List String) :
    ∀ (st f : List (String × Val)) (evs : List Ev) (k : String), k ∉ ks →
    ((removeLoop ks st f evs).1).lookup k = st.lookup k := by
  induction ks with
  | nil => intro st f evs k _; rfl
  | cons k0 rest ih =>
    intro st f evs k hk
    have hne : k ≠ k0 := fun h => hk (h ▸ List.mem_cons_self k0 rest)
    have hrest : k ∉ rest := fun h => hk (List.mem_cons_of_mem k0 h)
    simp only [removeLoop]
    rw [ih _ _ _ k hrest]
    by_cases h1 : hasKey st k0 = true
    · simp only [h1, if_true]
      exact lookup_eraseKey_ne st k k0 hne
    · simp only [Bool.not_eq_true] at h1
      simp only [h1, Bool.false_eq_true, if_false]

theorem removeLoop_events_no_blo (ks : List String) :
    ∀ (st f : List (String × Val)) (evs : List Ev), Ev.bytesLimitOver ∉ evs →
    Ev.bytesLimitOver ∉ (removeLoop ks st f evs).2.2 := by
  induction ks with
  | nil => intro st f evs h; exact h
  | cons k0 rest ih =>
    intro st f evs h
    simp only [removeLoop]
    refine ih _ _ _ ?_
    by_cases h1 : hasKey f k0 = true <;> by_cases h2 : hasKey st k0 = true <;>
      simp [h1, h2, List.mem_append, h]

/-- The `remove` operation never emits `bytesLimitOver` (the byte-budget check
lives only in `emitEvent`, which `remove` does not call). -/
theorem remove_no_bytesLimitOver (compress : String → String)
    (parse : String → List (String × Val)) (fs : FS) (s : StoreSt)
    (keys : List String) :
    Ev.bytesLimitOver ∉ (remove compress parse fs s keys).events := by
  have h := removeLoop_events_no_blo keys s.store (getFormFile parse fs s) [] (by simp)
  unfold remove
  by_cases hc : dequalObj (removeLoop keys s.store (getFormFile parse fs s) []).2.1 s.snapshot = true
  · simp only [hc, Bool.not_true, Bool.false_eq_true, if_false]
    exact h
  · simp only [Bool.not_eq_true] at hc
    simp only [hc, Bool.not_false, if_true]
    exact h

/-- First branch of `write`: no backing file yet. -/
theorem write_eq_of_no_file (compress : String → String)
    (parse : String → List (String × Val)) (fs : FS) (s : StoreSt)
    (h : firstWrite fs s = false) :
    write compress parse fs s =
      ⟨fsSet fs s.filePath (compress (stringifyObj (getNewStore parse fs s))),
       { s with store := [], snapshot := getNewStore parse fs s },
       (emitEvent parse
         (fsSet fs s.filePath (compress (stringifyObj (getNewStore parse fs s))))
         { s with store := [], snapshot := getNewStore parse fs s }).1,
       [getNewStore parse fs s],
       (emitEvent parse
         (fsSet fs s.filePath (compress (stringifyObj (getNewStore parse fs s))))
         { s with store := [], snapshot := getNewStore parse fs s }).2⟩ := by
  unfold write
  rw [if_pos h]
  rfl

/-- Second branch of `write`, rewriting case: a file exists and the merged view
is not deeply equal to the snapshot. -/
theorem write_eq_rewrite (compress : String → String)
    (parse : String → List (String × Val)) (fs : FS) (s : StoreSt)
    (h1 : firstWrite fs s = true)
    (h2 : dequalObj (getNewStore parse fs s) s.snapshot = false) :
    write compress parse fs s =
      ⟨fsSet fs s.filePath (compress (stringifyObj (getNewStore parse fs s))),
       { s with store := [], snapshot := getNewStore parse fs s },
       (emitEvent parse
         (fsSet fs s.filePath (compress (stringifyObj (getNewStore parse fs s))))
         { s with store := [], snapshot := getNewStore parse fs s }).1,
       [getNewStore parse fs s],
       (emitEvent parse
         (fsSet fs s.filePath (compress (stringifyObj (getNewStore parse fs s))))
         { s with store := [], snapshot := getNewStore parse fs s }).2⟩ := by
  unfold write
  rw [if_neg (by simp [h1])]
  rw [if_pos (by simp [h1, h2])]
  rfl

/-- Second branch of `write`, no-op case: a file exists and the merged view is
deeply equal to the snapshot, so nothing at all happens. -/
theorem write_eq_noop (compress : String → String)
    (parse : String → List (String × Val)) (fs : FS) (s : StoreSt)
    (h1 : firstWrite fs s = true)
    (h2 : dequalObj (getNewStore parse fs s) s.snapshot = true) :
    write compress parse fs s = ⟨fs, s, [], [], false⟩ := by
  unfold write
  rw [if_neg (by simp [h1])]
  rw [if_neg (by simp [h2])]

theorem getNewStore_empty_store (parse : String → List (String × Val)) (fs : FS)
    (s : StoreSt) (h : s.store = []) :
    getNewStore parse fs s = getFormFile parse fs s := by
  unfold getNewStore
  rw [h, objSpread_nil_right]

theorem getFormFile_fsSet (parse : String → List (String × Val)) (fs : FS)
    (b : String) (s : StoreSt) :
    getFormFile parse (fsSet fs s.filePath b) s = parse b := by
  unfold getFormFile
  rw [fsLookup_fsSet_self]

theorem firstWrite_fsSet (fs : FS) (b : String) (s : StoreSt) :
    firstWrite (fsSet fs s.filePath b) s = true := by
  unfold firstWrite
  rw [fsLookup_fsSet_self]
  rfl

/-- Stand-in for the compression codec in concrete scenarios; any function
works because the theorems only ever need the pointwise round-trip. -/
def demoCompress : String → String := fun s => s

/-- The record `\x7ba: 1\x7d` used by the concrete scenarios. -/
def objA1 : List (String × Val) := [("a", Val.vnum 1)]

/-- Stand-in for `JSON.parse` composed with decompression in concrete
scenarios: it inverts `demoCompress ∘ stringifyObj` on the records those
scenarios persist. -/
def demoParse : String → List (String × Val) := fun s =>
  if s == stringifyObj objA1 then objA1 else []

/-- State of the concrete scenario `new Store(); set(\x7ba: 1\x7d); write()`:
the backing file now exists and holds the compressed record. -/
def afterFirstWrite : WResult :=
  write demoCompress demoParse [] (setObjArg demoParse [] (mkStore none) objA1)

/-- Claim C1, counterexample to the universally quantified sentence.  After
`set(\x7ba: 1\x7d); write()` the backing file exists; calling `write()` twice
in a row with no intervening `set`/`remove` performs zero disk writes, not
exactly one, because the merged view already equals the snapshot at the first
of the two calls. -/
theorem write_twice_zero_writes_counterexample :
    firstWrite afterFirstWrite.fs afterFirstWrite.st = true
    ∧ (write demoCompress demoParse afterFirstWrite.fs afterFirstWrite.st).writes = []
    ∧ (write demoCompress demoParse
        (write demoCompress demoParse afterFirstWrite.fs afterFirstWrite.st).fs
        (write demoCompress demoParse afterFirstWrite.fs afterFirstWrite.st).st).writes = [] := by
  exact ⟨rfl, rfl, rfl⟩

/-- Claim C1, amended.  For a store whose backing file exists, `write()`
rewrites the file if and only if the merged view is not deeply equal to the
last persisted snapshot; and calling `write()` twice in a row performs at most
one disk write, the second call being a complete no-op (no write, no event, no
state change).  The hypotheses say that the merged view is a well-formed JS
object and that the codec round-trips the record this call may persist. -/
theorem write_rewrite_iff_dequal_and_second_noop
    (compress : String → String) (parse : String → List (String × Val))
    (fs : FS) (s : StoreSt)
    (hfile : firstWrite fs s = true)
    (hwf : wfObj (getNewStore parse fs s) = true)
    (hrt : parse (compress (stringifyObj (getNewStore parse fs s)))
      = getNewStore parse fs s) :
    ((write compress parse fs s).writes ≠ []
      ↔ dequalObj (getNewStore parse fs s) s.snapshot = false)
    ∧ write compress parse (write compress parse fs s).fs (write compress parse fs s).st
      = ⟨(write compress parse fs s).fs, (write compress parse fs s).st, [], [], false⟩ := by
  cases hd : dequalObj (getNewStore parse fs s) s.snapshot with
  | true =>
    rw [write_eq_noop compress parse fs s hfile hd]
    constructor
    · simp
    · exact write_eq_noop compress parse fs s hfile hd
  | false =>
    rw [write_eq_rewrite compress parse fs s hfile hd]
    constructor
    · simp
    · have hfile2 : firstWrite
        (fsSet fs s.filePath (compress (stringifyObj (getNewStore parse fs s))))
        { s with store := [], snapshot := getNewStore parse fs s } = true :=
        firstWrite_fsSet fs _ _
      have hns2 : getNewStore parse
          (fsSet fs s.filePath (compress (stringifyObj (getNewStore parse fs s))))
          { s with store := [], snapshot := getNewStore parse fs s }
          = getNewStore parse fs s := by
        rw [getNewStore_empty_store _ _ _ rfl]
        exact (getFormFile_fsSet parse fs _ _).trans hrt
      have hd2 : dequalObj (getNewStore parse
          (fsSet fs s.filePath (compress (stringifyObj (getNewStore parse fs s))))
          { s with store := [], snapshot := getNewStore parse fs s })
          (getNewStore parse fs s) = true := by
        rw [hns2]
        exact dequalObj_refl _ hwf
      exact write_eq_noop compress parse _ _ hfile2 hd2

/-- Witness for the amended claim C1 at the concrete scenario of `afterFirstWrite`. -/
theorem write_rewrite_iff_dequal_and_second_noop_witness :
    (firstWrite afterFirstWrite.fs afterFirstWrite.st = true
      ∧ wfObj (getNewStore demoParse afterFirstWrite.fs afterFirstWrite.st) = true
      ∧ demoParse (demoCompress (stringifyObj (getNewStore demoParse afterFirstWrite.fs afterFirstWrite.st)))
        = getNewStore demoParse afterFirstWrite.fs afterFirstWrite.st)
    ∧ (((write demoCompress demoParse afterFirstWrite.fs afterFirstWrite.st).writes ≠ []
        ↔ dequalObj (getNewStore demoParse afterFirstWrite.fs afterFirstWrite.st) afterFirstWrite.st.snapshot = false)
      ∧ write demoCompress demoParse
          (write demoCompress demoParse afterFirstWrite.fs afterFirstWrite.st).fs
          (write demoCompress demoParse afterFirstWrite.fs afterFirstWrite.st).st
        = ⟨(write demoCompress demoParse afterFirstWrite.fs afterFirstWrite.st).fs,
           (write demoCompress demoParse afterFirstWrite.fs afterFirstWrite.st).st, [], [], false⟩) :=
  ⟨⟨rfl, rfl, rfl⟩,
    write_rewrite_iff_dequal_and_second_noop demoCompress demoParse afterFirstWrite.fs afterFirstWrite.st
      rfl rfl rfl⟩

/-- Shared helper: whenever `write` performs a disk write, the record written
is the merged view, the snapshot becomes that record, the pending buffer is
cleared, and the backing file holds the compressed serialisation. -/
theorem write_persist_frame (compress : String → String)
    (parse : String → List (String × Val)) (fs : FS) (s : StoreSt)
    (hw : (write compress parse fs s).writes ≠ []) :
    (write compress parse fs s).writes = [getNewStore parse fs s]
    ∧ (write compress parse fs s).st.snapshot = getNewStore parse fs s
    ∧ (write compress parse fs s).st.store = []
    ∧ fsLookup (write compress parse fs s).fs s.filePath
      = some (compress (stringifyObj (getNewStore parse fs s))) := by
  cases hf : firstWrite fs s with
  | false =>
    rw [write_eq_of_no_file compress parse fs s hf]
    exact ⟨rfl, rfl, rfl, fsLookup_fsSet_self fs s.filePath _⟩
  | true =>
    cases hd : dequalObj (getNewStore parse fs s) s.snapshot with
    | false =>
      rw [write_eq_rewrite compress parse fs s hf hd]
      exact ⟨rfl, rfl, rfl, fsLookup_fsSet_self fs s.filePath _⟩
    | true =>
      rw [write_eq_noop compress parse fs s hf hd] at hw
      simp at hw

/-- Claim C3: after every `write()` call that persists (the no-file branch and
the rewrite branch both do), the snapshot equals the merged record that was
just written to the file, and the pending buffer is empty. -/
theorem write_snapshot_eq_written_and_buffer_cleared (compress : String → String)
    (parse : String → List (String × Val)) (fs : FS) (s : StoreSt)
    (hw : (write compress parse fs s).writes ≠ []) :
    (write compress parse fs s).writes = [getNewStore parse fs s]
    ∧ (write compress parse fs s).st.snapshot = getNewStore parse fs s
    ∧ (write compress parse fs s).st.store = []
    ∧ fsLookup (write compress parse fs s).fs s.filePath
      = some (compress (stringifyObj (getNewStore parse fs s))) :=
  write_persist_frame compress parse fs s hw

/-- The pending buffer holding `\x7ba: 1\x7d` over an empty filesystem. -/
def pendingA1 : StoreSt := setObjArg demoParse [] (mkStore none) objA1

/-- Witness for claim C3 at the concrete first write of `\x7ba: 1\x7d`. -/
theorem write_snapshot_eq_written_and_buffer_cleared_witness :
    (write demoCompress demoParse [] pendingA1).writes ≠ []
    ∧ ((write demoCompress demoParse [] pendingA1).writes
        = [getNewStore demoParse [] pendingA1]
      ∧ (write demoCompress demoParse [] pendingA1).st.snapshot
        = getNewStore demoParse [] pendingA1
      ∧ (write demoCompress demoParse [] pendingA1).st.store = []
      ∧ fsLookup (write demoCompress demoParse [] pendingA1).fs pendingA1.filePath
        = some (demoCompress (stringifyObj (getNewStore demoParse [] pendingA1)))) := by
  have hw : (write demoCompress demoParse [] pendingA1).writes ≠ [] := by
    rw [show (write demoCompress demoParse [] pendingA1).writes
      = [getNewStore demoParse [] pendingA1] from rfl]
    simp
  exact ⟨hw, write_snapshot_eq_written_and_buffer_cleared demoCompress demoParse [] pendingA1 hw⟩

/-- Claim C10: `get` conflates a stored `null` with absence — when the merged
view maps the key to `null`, and when the key is missing altogether, `get`
returns the same absent sentinel (`undefined`, modelled as `none`). -/
theorem get_conflates_stored_null_with_absence (parse : String → List (String × Val))
    (fs : FS) (s : StoreSt) (key : String) :
    ((getNewStore parse fs s).lookup key = some Val.vnull → Store.get parse fs s key = none)
    ∧ ((getNewStore parse fs s).lookup key = none → Store.get parse fs s key = none) := by
  constructor <;> intro h <;> unfold Store.get <;> rw [h]

/-- Store whose pending buffer holds a stored `null`. -/
def pendingNull : StoreSt := { mkStore none with store := [("k", Val.vnull)] }

/-- Witness for claim C10: a stored null and a missing key both read back as
the absent sentinel. -/
theorem get_conflates_stored_null_with_absence_witness :
    ((getNewStore demoParse [] pendingNull).lookup "k" = some Val.vnull
      ∧ Store.get demoParse [] pendingNull "k" = none)
    ∧ ((getNewStore demoParse [] pendingNull).lookup "z" = none
      ∧ Store.get demoParse [] pendingNull "z" = none) :=
  ⟨⟨rfl, (get_conflates_stored_null_with_absence demoParse [] pendingNull "k").1 rfl⟩,
   ⟨rfl, (get_conflates_stored_null_with_absence demoParse [] pendingNull "z").2 rfl⟩⟩

/-- Claim C8: after `set(\x7ba: 1\x7d); write()`, calling `remove("a")`
immediately recompresses and rewrites the backing file (one disk write of the
now-empty record, no `write()` call needed), and a fresh store instance with
the same name then reads `get("a")` as the absent sentinel. -/
theorem remove_rewrites_immediately_and_fresh_get_absent :
    (remove demoCompress demoParse afterFirstWrite.fs afterFirstWrite.st ["a"]).writes = [[]]
    ∧ fsLookup (remove demoCompress demoParse afterFirstWrite.fs afterFirstWrite.st ["a"]).fs
        (mkStore none).filePath = some (demoCompress (stringifyObj []))
    ∧ Store.get demoParse
        (remove demoCompress demoParse afterFirstWrite.fs afterFirstWrite.st ["a"]).fs
        (mkStore none) "a" = none :=
  ⟨rfl, rfl, rfl⟩

/-- Claim C9: the round-trip through the compressed file.  For every codec
pair that inverts the persisted record, `set(\x7ba: 1\x7d); write()` followed
by `get("a")` on a fresh store instance with the same name yields `1`, read by
decompressing and parsing the persisted file. -/
theorem roundtrip_set_write_fresh_get (compress : String → String)
    (parse : String → List (String × Val)) (name : String)
    (hrt : parse (compress (stringifyObj objA1)) = objA1) :
    Store.get parse
      (write compress parse [] (setObjArg parse [] (mkStore (some name)) objA1)).fs
      (mkStore (some name)) "a" = some (Val.vnum 1) := by
  have hf : firstWrite [] (setObjArg parse [] (mkStore (some name)) objA1) = false := rfl
  rw [write_eq_of_no_file compress parse [] (setObjArg parse [] (mkStore (some name)) objA1) hf]
  unfold Store.get
  have h1 : getNewStore parse
      (fsSet [] (setObjArg parse [] (mkStore (some name)) objA1).filePath
        (compress (stringifyObj (getNewStore parse []
          (setObjArg parse [] (mkStore (some name)) objA1)))))
      (mkStore (some name)) = objA1 := by
    rw [getNewStore_empty_store _ _ _ rfl]
    exact (getFormFile_fsSet parse [] _ (mkStore (some name))).trans hrt
  rw [h1]
  rfl

/-- Witness for claim C9 with the identity codec and the default store name. -/
theorem roundtrip_set_write_fresh_get_witness :
    demoParse (demoCompress (stringifyObj objA1)) = objA1
    ∧ Store.get demoParse
        (write demoCompress demoParse []
          (setObjArg demoParse [] (mkStore (some "lwe8_store")) objA1)).fs
        (mkStore (some "lwe8_store")) "a" = some (Val.vnum 1) :=
  ⟨rfl, roundtrip_set_write_fresh_get demoCompress demoParse "lwe8_store" rfl⟩

/-- Claim C7, amended.  `remove(...keys)` deletes the listed keys from the
pending buffer, and a buffer entry whose key is not listed survives unchanged
PROVIDED the call performs no disk rewrite; when the modified on-disk record
differs from the snapshot, the rewrite runs `_write`, which clears the entire
pending buffer, so every buffer entry is dropped, listed or not. -/
theorem remove_buffer_frame (compress : String → String)
    (parse : String → List (String × Val)) (fs : FS) (s : StoreSt)
    (keys : List String) :
    ((remove compress parse fs s keys).writes = [] →
      ∀ k, k ∉ keys →
        ((remove compress parse fs s keys).st.store).lookup k = s.store.lookup k)
    ∧ ((remove compress parse fs s keys).writes ≠ [] →
        (remove compress parse fs s keys).st.store = []) := by
  unfold remove
  cases hd : dequalObj (removeLoop keys s.store (getFormFile parse fs s) []).2.1 s.snapshot with
  | true =>
    rw [if_neg (by simp [hd])]
    constructor
    · intro _ k hk
      exact removeLoop_store_lookup keys s.store (getFormFile parse fs s) [] k hk
    · intro h
      simp at h
  | false =>
    rw [if_pos (by simp [hd])]
    constructor
    · intro h
      simp at h
    · intro _
      rfl

/-- The state after `set(\x7ba: 1\x7d); write(); set("b", 2)`: the file holds
`\x7ba: 1\x7d` and the pending buffer holds both keys. -/
def bufBoth : StoreSt :=
  setKeyArg demoParse afterFirstWrite.fs afterFirstWrite.st "b" (Val.vnum 2)

/-- Claim C7, counterexample.  Removing only `"a"` wipes the unrelated buffer
entry `"b"`: the rewrite triggered by the on-disk change runs `_write`, which
clears the whole pending buffer. -/
theorem remove_wipes_unlisted_buffer_entry_counterexample :
    bufBoth.store.lookup "b" = some (Val.vnum 2)
    ∧ "b" ∉ ["a"]
    ∧ (remove demoCompress demoParse afterFirstWrite.fs bufBoth ["a"]).st.store.lookup "b" = none :=
  ⟨rfl, by simp, rfl⟩

/-- Witness for the amended claim C7: a `remove` of a key absent from the file
leaves the unrelated buffer entry in place, and a `remove` that rewrites the
file clears the whole buffer. -/
theorem remove_buffer_frame_witness :
    ((remove demoCompress demoParse afterFirstWrite.fs bufBoth ["z"]).writes = []
      ∧ "b" ∉ ["z"]
      ∧ (remove demoCompress demoParse afterFirstWrite.fs bufBoth ["z"]).st.store.lookup "b"
        = bufBoth.store.lookup "b")
    ∧ ((remove demoCompress demoParse afterFirstWrite.fs bufBoth ["a"]).writes ≠ []
      ∧ (remove demoCompress demoParse afterFirstWrite.fs bufBoth ["a"]).st.store = []) := by
  have hne : (remove demoCompress demoParse afterFirstWrite.fs bufBoth ["a"]).writes ≠ [] := by
    rw [show (remove demoCompress demoParse afterFirstWrite.fs bufBoth ["a"]).writes
      = [[]] from rfl]
    simp
  refine ⟨⟨rfl, by simp, ?_⟩, ⟨hne, ?_⟩⟩
  · exact (remove_buffer_frame demoCompress demoParse afterFirstWrite.fs bufBoth ["z"]).1
      rfl "b" (by simp)
  · exact (remove_buffer_frame demoCompress demoParse afterFirstWrite.fs bufBoth ["a"]).2 hne

/-- Membership of `bytesLimitOver` in `emitEvent`'s emissions is exactly the
budget comparison. -/
theorem emitEvent_mem_blo (parse : String → List (String × Val)) (fs : FS) (s : StoreSt) :
    Ev.bytesLimitOver ∈ (emitEvent parse fs s).1
      ↔ s.max < bfo (Val.vobj (getNewStore parse fs s)) := by
  unfold emitEvent
  by_cases hc : s.max < bfo (Val.vobj (getNewStore parse fs s))
  · rw [if_pos hc]
    simp [hc]
  · rw [if_neg hc]
    simp [hc]

/-- Claim C4, amended.  The byte-budget check runs after `write()`'s
persisting branches — `bytesLimitOver` fires there exactly when the merged
view of the state just written exceeds `maxBytes` — but `remove`'s immediate
rewrite never runs the byte-budget check. -/
theorem byteBudget_check_only_in_write (compress : String → String)
    (parse : String → List (String × Val)) (fs : FS) (s : StoreSt) :
    (∀ keys, Ev.bytesLimitOver ∉ (remove compress parse fs s keys).events)
    ∧ ((write compress parse fs s).writes ≠ [] →
        (Ev.bytesLimitOver ∈ (write compress parse fs s).events
          ↔ (write compress parse fs s).st.max <
            bfo (Val.vobj (getNewStore parse
              (write compress parse fs s).fs (write compress parse fs s).st)))) := by
  constructor
  · intro keys
    exact remove_no_bytesLimitOver compress parse fs s keys
  · intro hw
    cases hf : firstWrite fs s with
    | false =>
      rw [write_eq_of_no_file compress parse fs s hf]
      exact emitEvent_mem_blo parse _ _
    | true =>
      cases hd : dequalObj (getNewStore parse fs s) s.snapshot with
      | false =>
        rw [write_eq_rewrite compress parse fs s hf hd]
        exact emitEvent_mem_blo parse _ _
      | true =>
        rw [write_eq_noop compress parse fs s hf hd] at hw
        simp at hw

/-- A 250001-character string: its JSON serialisation is 250003 bytes, above
the default 250000-byte budget on its own. -/
def bigStr : String := mkA 250001

/-- The oversized value. -/
def bigVal : Val := Val.vstr bigStr

/-- A record holding only the oversized value. -/
def bigObj : List (String × Val) := [("big", bigVal)]

/-- A record holding the oversized value and one small value. -/
def bigObj2 : List (String × Val) := [("big", bigVal), ("x", Val.vnum 1)]

/-- Stand-in parse function for the oversized scenarios: every file decodes to
`bigObj2` (it agrees with the real `JSON.parse` at the only file read). -/
def demoParseBig2 : String → List (String × Val) := fun _ => bigObj2

/-- Stand-in parse function decoding every file to `bigObj`. -/
def demoParseBig : String → List (String × Val) := fun _ => bigObj

theorem bfo_bigObj : bfo (Val.vobj bigObj) = 250011 := by
  have h1 : bfo bigVal = 250003 := by
    have h := bfo_vstr_mkA 250001
    rw [show bigVal = Val.vstr (mkA 250001) from rfl, h]
  have h2 : utf8Len (quoteStr "big") = 5 := by decide
  have h3 := bfo_vobj_single "big" bigVal
  rw [show (Val.vobj bigObj) = Val.vobj [("big", bigVal)] from rfl, h3, h1, h2]

/-- Claim C4, counterexample.  A fresh store over an existing file holding the
oversized record: `remove("x")` changes the on-disk record, so it persists a
disk write whose content is far above the byte budget, yet no byte-budget
check runs — no `bytesLimitOver` is emitted and the eviction path is never
entered. -/
theorem remove_rewrite_skips_budget_check_counterexample :
    (remove demoCompress demoParseBig2 [((mkStore none).filePath, "BLOB")]
      (mkStore none) ["x"]).writes = [[("big", bigVal)]]
    ∧ (mkStore none).max < bfo (Val.vobj [("big", bigVal)])
    ∧ Ev.bytesLimitOver ∉ (remove demoCompress demoParseBig2
        [((mkStore none).filePath, "BLOB")] (mkStore none) ["x"]).events
    ∧ (remove demoCompress demoParseBig2 [((mkStore none).filePath, "BLOB")]
        (mkStore none) ["x"]).error = false := by
  refine ⟨rfl, ?_, ?_, rfl⟩
  · rw [show (mkStore none).max = 250000 from rfl]
    rw [show (Val.vobj [("big", bigVal)]) = Val.vobj bigObj from rfl, bfo_bigObj]
    omega
  · rw [show (remove demoCompress demoParseBig2 [((mkStore none).filePath, "BLOB")]
      (mkStore none) ["x"]).events = [Ev.removedFromFileStorage "x"] from rfl]
    simp

/-- Witness for the amended claim C4 at the concrete small scenario. -/
theorem byteBudget_check_only_in_write_witness :
    Ev.bytesLimitOver ∉ (remove demoCompress demoParse [] pendingA1 ["a"]).events
    ∧ ((write demoCompress demoParse [] pendingA1).writes ≠ []
      ∧ (Ev.bytesLimitOver ∈ (write demoCompress demoParse [] pendingA1).events
        ↔ (write demoCompress demoParse [] pendingA1).st.max <
          bfo (Val.vobj (getNewStore demoParse
            (write demoCompress demoParse [] pendingA1).fs
            (write demoCompress demoParse [] pendingA1).st)))) := by
  have hw : (write demoCompress demoParse [] pendingA1).writes ≠ [] := by
    rw [show (write demoCompress demoParse [] pendingA1).writes
      = [getNewStore demoParse [] pendingA1] from rfl]
    simp
  exact ⟨(byteBudget_check_only_in_write demoCompress demoParse [] pendingA1).1 ["a"],
    hw, (byteBudget_check_only_in_write demoCompress demoParse [] pendingA1).2 hw⟩

/-- The error flag of `emitEvent` is set exactly when the budget is exceeded:
emitting `bytesLimitOver` invokes the unbound `reducebyts` listener, which
throws. -/
theorem emitEvent_error_iff (parse : String → List (String × Val)) (fs : FS) (s : StoreSt) :
    (emitEvent parse fs s).2 = true ↔ s.max < bfo (Val.vobj (getNewStore parse fs s)) := by
  unfold emitEvent
  by_cases hc : s.max < bfo (Val.vobj (getNewStore parse fs s))
  · rw [if_pos hc]
    simp [hc]
  · rw [if_neg hc]
    simp [hc]

/-- Claim C5: eviction is advisory.  For every `write()` whose merged view
exceeds `maxBytes` and which persists, the backing file and the snapshot hold
the full merged record afterwards and the buffer is empty — the reduction
computed by the eviction helper is never written to the file, the snapshot, or
the buffer. -/
theorem eviction_advisory_over_budget (compress : String → String)
    (parse : String → List (String × Val)) (fs : FS) (s : StoreSt)
    (hover : s.max < bfo (Val.vobj (getNewStore parse fs s)))
    (hw : (write compress parse fs s).writes ≠ []) :
    (write compress parse fs s).writes = [getNewStore parse fs s]
    ∧ fsLookup (write compress parse fs s).fs s.filePath
      = some (compress (stringifyObj (getNewStore parse fs s)))
    ∧ (write compress parse fs s).st.snapshot = getNewStore parse fs s
    ∧ (write compress parse fs s).st.store = [] := by
  have h := write_persist_frame compress parse fs s hw
  exact ⟨h.1, h.2.2.2, h.2.1, h.2.2.1⟩

/-- A store whose pending buffer holds the oversized record. -/
def overBudgetStore : StoreSt := { mkStore none with store := bigObj }

/-- Witness for claim C5 at the oversized concrete scenario. -/
theorem eviction_advisory_over_budget_witness :
    (overBudgetStore.max < bfo (Val.vobj (getNewStore demoParseBig [] overBudgetStore))
      ∧ (write demoCompress demoParseBig [] overBudgetStore).writes ≠ [])
    ∧ ((write demoCompress demoParseBig [] overBudgetStore).writes
        = [getNewStore demoParseBig [] overBudgetStore]
      ∧ fsLookup (write demoCompress demoParseBig [] overBudgetStore).fs
          overBudgetStore.filePath
        = some (demoCompress (stringifyObj (getNewStore demoParseBig [] overBudgetStore)))
      ∧ (write demoCompress demoParseBig [] overBudgetStore).st.snapshot
        = getNewStore demoParseBig [] overBudgetStore
      ∧ (write demoCompress demoParseBig [] overBudgetStore).st.store = []) := by
  have hover : overBudgetStore.max
      < bfo (Val.vobj (getNewStore demoParseBig [] overBudgetStore)) := by
    rw [show getNewStore demoParseBig [] overBudgetStore = bigObj from rfl]
    rw [show overBudgetStore.max = 250000 from rfl]
    rw [bfo_bigObj]
    omega
  have hw : (write demoCompress demoParseBig [] overBudgetStore).writes ≠ [] := by
    rw [show (write demoCompress demoParseBig [] overBudgetStore).writes
      = [getNewStore demoParseBig [] overBudgetStore] from rfl]
    simp
  exact ⟨⟨hover, hw⟩,
    eviction_advisory_over_budget demoCompress demoParseBig [] overBudgetStore hover hw⟩

/-- Whenever a persisting `write` leaves the state over budget, the call
raises: the `bytesLimitOver` emit reaches the unbound listener, whose body
throws a `TypeError` that propagates out of `write`. -/
theorem write_error_of_over_budget (compress : String → String)
    (parse : String → List (String × Val)) (fs : FS) (s : StoreSt)
    (hw : (write compress parse fs s).writes ≠ [])
    (hover : (write compress parse fs s).st.max <
      bfo (Val.vobj (getNewStore parse
        (write compress parse fs s).fs (write compress parse fs s).st))) :
    (write compress parse fs s).error = true := by
  cases hf : firstWrite fs s with
  | false =>
    rw [write_eq_of_no_file compress parse fs s hf] at hover ⊢
    exact (emitEvent_error_iff parse _ _).mpr hover
  | true =>
    cases hd : dequalObj (getNewStore parse fs s) s.snapshot with
    | false =>
      rw [write_eq_rewrite compress parse fs s hf hd] at hover ⊢
      exact (emitEvent_error_iff parse _ _).mpr hover
    | true =>
      rw [write_eq_noop compress parse fs s hf hd] at hw
      simp at hw

/-- Claim C6 evaluated at the failing input: with the pending buffer holding
the oversized record, `write()` performs the disk write and then raises a
`TypeError` instead of completing without error, because the byte-limit
notification is dispatched to the unbound `this.reducebyts` listener. -/
theorem write_raises_on_budget_breach :
    (write demoCompress demoParseBig [] overBudgetStore).error = true
    ∧ (write demoCompress demoParseBig [] overBudgetStore).writes
      = [getNewStore demoParseBig [] overBudgetStore] := by
  refine ⟨?_, rfl⟩
  have hw : (write demoCompress demoParseBig [] overBudgetStore).writes ≠ [] := by
    rw [show (write demoCompress demoParseBig [] overBudgetStore).writes
      = [getNewStore demoParseBig [] overBudgetStore] from rfl]
    simp
  refine write_error_of_over_budget demoCompress demoParseBig [] overBudgetStore hw ?_
  rw [show getNewStore demoParseBig
      (write demoCompress demoParseBig [] overBudgetStore).fs
      (write demoCompress demoParseBig [] overBudgetStore).st = bigObj from rfl]
  rw [show (write demoCompress demoParseBig [] overBudgetStore).st.max = 250000 from rfl]
  rw [bfo_bigObj]
  omega

theorem insDP_mem (g : String × Val → Nat) (p x : String × Val) :
    ∀ acc : List (String × Val), x ∈ insDP g p acc → x = p ∨ x ∈ acc := by
  intro acc
  induction acc with
  | nil =>
    intro h
    simp [insDP] at h
    exact Or.inl h
  | cons q qs ih =>
    intro h
    simp only [insDP] at h
    by_cases hc : g p ≤ g q
    · rw [if_pos hc] at h
      rcases List.mem_cons.mp h with h1 | h1
      · exact Or.inr (List.mem_cons.mpr (Or.inl h1))
      · rcases ih h1 with h2 | h2
        · exact Or.inl h2
        · exact Or.inr (List.mem_cons.mpr (Or.inr h2))
    · rw [if_neg hc] at h
      rcases List.mem_cons.mp h with h1 | h1
      · exact Or.inl h1
      · exact Or.inr h1

theorem sortFold_mem (g : String × Val → Nat) (q : String × Val) :
    ∀ (l acc : List (String × Val)),
      q ∈ l.foldl (fun acc p => insDP g p acc) acc → q ∈ l ∨ q ∈ acc := by
  intro l
  induction l with
  | nil =>
    intro acc h
    exact Or.inr h
  | cons p ps ih =>
    intro acc h
    simp only [List.foldl] at h
    rcases ih (insDP g p acc) h with h1 | h1
    · exact Or.inl (List.mem_cons.mpr (Or.inr h1))
    · rcases insDP_mem g p q acc h1 with h2 | h2
      · exact Or.inl (List.mem_cons.mpr (Or.inl h2))
      · exact Or.inr h2

theorem insDP_map_fst (f : String → Nat) (g : String × Val → Nat) (p : String × Val) :
    ∀ acc : List (String × Val), f p.1 = g p → (∀ q ∈ acc, f q.1 = g q) →
      (insDP g p acc).map Prod.fst = insD f p.1 (acc.map Prod.fst) := by
  intro acc hp hacc
  induction acc with
  | nil => simp [insDP, insD]
  | cons q qs ih =>
    have hq := hacc q (by simp)
    simp only [insDP, insD, List.map]
    rw [hp, hq]
    by_cases hc : g p ≤ g q
    · rw [if_pos hc, if_pos hc]
      simp only [List.map]
      rw [ih (fun r hr => hacc r (by simp [hr]))]
    · rw [if_neg hc, if_neg hc]
      simp [List.map]

theorem sortFold_map_fst (f : String → Nat) (g : String × Val → Nat) :
    ∀ (l acc : List (String × Val)), (∀ q ∈ l, f q.1 = g q) → (∀ q ∈ acc, f q.1 = g q) →
      (l.foldl (fun acc p => insDP g p acc) acc).map Prod.fst
        = (l.map Prod.fst).foldl (fun acc k => insD f k acc) (acc.map Prod.fst) := by
  intro l
  induction l with
  | nil =>
    intro acc _ _
    rfl
  | cons p ps ih =>
    intro acc hl hacc
    simp only [List.foldl, List.map]
    rw [ih (insDP g p acc) (fun q hq => hl q (by simp [hq]))
      (fun q hq => by
        rcases insDP_mem g p q acc hq with h1 | h1
        · rw [h1]
          exact hl p (by simp)
        · exact hacc q h1)]
    rw [insDP_map_fst f g p acc (hl p (by simp)) hacc]

theorem greedy_map (obj : List (String × Val)) (max : Nat) :
    ∀ ps : List (String × Val), (∀ q ∈ ps, lookupD obj q.1 = q.2) →
      ∀ size, reduceBytsGo obj max (ps.map Prod.fst) size = greedyTake max ps size := by
  intro ps
  induction ps with
  | nil =>
    intro _ size
    rfl
  | cons p ps' ih =>
    intro h size
    have hp := h p (by simp)
    simp only [List.map, reduceBytsGo, greedyTake, hp]
    by_cases hc : max < size + bfo p.2
    · rw [if_pos hc, if_pos hc]
    · rw [if_neg hc, if_neg hc]
      rw [ih (fun q hq => h q (by simp [hq])) (size + bfo p.2)]

/-- On records with duplicate-free keys (every JS object), the source
`reduceByts` computes exactly the specification-side `reduceBytsSpec`. -/
theorem reduceByts_eq_spec (obj : List (String × Val)) (max : Nat)
    (hnd : nodupKeys obj = true) : reduceByts obj max = reduceBytsSpec obj max := by
  have hm : ∀ q : String × Val, q ∈ obj → lookupD obj q.1 = q.2 := by
    intro q hq
    have h1 : (q.1, q.2) ∈ obj := hq
    unfold lookupD
    rw [mem_lookup_nodup hnd h1]
    rfl
  have hfg : ∀ q ∈ obj, (fun k => bfo (lookupD obj k)) q.1
      = (fun q : String × Val => bfo q.2) q := by
    intro q hq
    simp only []
    rw [hm q hq]
  have hs := sortFold_map_fst (fun k => bfo (lookupD obj k))
    (fun q : String × Val => bfo q.2) obj [] hfg (by simp)
  simp only [List.map_nil] at hs
  unfold reduceByts reduceBytsSpec sortKeysD sortEntriesD keysOf
  rw [← hs]
  refine greedy_map obj max _ ?_ 0
  intro q hq
  rcases sortFold_mem (fun q : String × Val => bfo q.2) q obj [] hq with h1 | h1
  · exact hm q h1
  · simp at h1

/-- The concrete sizes of the specification's worked example: with entry
serialisations of 5000, 1 and 200000 bytes under a 200500-byte budget,
`reduceByts` keeps only `c` — `a` would overflow and the `break` drops `b`
even though it would individually fit. -/
theorem reduceByts_sized (va vb vc : Val) (h1 : bfo va = 5000) (h2 : bfo vb = 1)
    (h3 : bfo vc = 200000) :
    reduceByts [("a", va), ("b", vb), ("c", vc)] 200500 = [("c", vc)] := by
  have la : lookupD [("a", va), ("b", vb), ("c", vc)] "a" = va := rfl
  have lb : lookupD [("a", va), ("b", vb), ("c", vc)] "b" = vb := rfl
  have lc : lookupD [("a", va), ("b", vb), ("c", vc)] "c" = vc := rfl
  unfold reduceByts
  rw [show keysOf [("a", va), ("b", vb), ("c", vc)] = ["a", "b", "c"] from rfl]
  have hsort : sortKeysD (fun k => bfo (lookupD [("a", va), ("b", vb), ("c", vc)] k))
      ["a", "b", "c"] = ["c", "a", "b"] := by
    simp only [sortKeysD, List.foldl, insD, la, lb, lc, h1, h2, h3]
    norm_num
  rw [hsort]
  simp only [reduceBytsGo, la, lc, h1, h3]
  norm_num

/-- Claim C2: `reduceByts(obj, max)` returns exactly the mapping obtained by
sorting the entries in descending order of the UTF-8 byte length of each
value's JSON serialisation and greedily accepting entries while the running
total stays at or under `max`, stopping at the first entry that would exceed
it and dropping all remaining entries; and on the concrete input with a
5000-byte, a 1-byte and a 200000-byte value under budget 200500, the result
keeps only `c`. -/
theorem reduceByts_sorts_desc_and_greedy_stops :
    (∀ (obj : List (String × Val)) (max : Nat), nodupKeys obj = true →
      reduceByts obj max = reduceBytsSpec obj max)
    ∧ (∀ va vb vc : Val, bfo va = 5000 → bfo vb = 1 → bfo vc = 200000 →
      reduceByts [("a", va), ("b", vb), ("c", vc)] 200500 = [("c", vc)]) :=
  ⟨reduceByts_eq_spec, reduceByts_sized⟩

/-- A value whose JSON serialisation is 5000 bytes. -/
def strA5000 : Val := Val.vstr (mkA 4998)

/-- A value whose JSON serialisation is 200000 bytes. -/
def strC200000 : Val := Val.vstr (mkA 199998)

/-- Witness for claim C2: the refinement at a small concrete record and the
worked example at concrete values of the stated byte sizes. -/
theorem reduceByts_sorts_desc_and_greedy_stops_witness :
    (nodupKeys [("k", Val.vnum 1), ("m", Val.vnum 2)] = true
      ∧ reduceByts [("k", Val.vnum 1), ("m", Val.vnum 2)] 5
        = reduceBytsSpec [("k", Val.vnum 1), ("m", Val.vnum 2)] 5)
    ∧ (bfo strA5000 = 5000 ∧ bfo (Val.vnum 5) = 1 ∧ bfo strC200000 = 200000
      ∧ reduceByts [("a", strA5000), ("b", Val.vnum 5), ("c", strC200000)] 200500
        = [("c", strC200000)]) := by
  have ha : bfo strA5000 = 5000 := by
    rw [show strA5000 = Val.vstr (mkA 4998) from rfl, bfo_vstr_mkA]
  have hb : bfo (Val.vnum 5) = 1 := rfl
  have hc : bfo strC200000 = 200000 := by
    rw [show strC200000 = Val.vstr (mkA 199998) from rfl, bfo_vstr_mkA]
  exact ⟨⟨rfl, reduceByts_sorts_desc_and_greedy_stops.1 [("k", Val.vnum 1), ("m", Val.vnum 2)] 5 rfl⟩,
    ⟨ha, hb, hc,
      reduceByts_sorts_desc_and_greedy_stops.2 strA5000 (Val.vnum 5) strC200000 ha hb hc⟩⟩
